import Mathlib

/-!
Verification development for the `Logger` component (src/logger.cpp, src/logger.hpp).

Shallow embedding conventions:
* C++ `std::string` is modelled as `List Char`.
* `unsigned short` arithmetic is modelled on `Nat` with explicit reduction
  modulo `2^16 = 65536` at the operations where the C++ code can wrap
  (`usub16` models unsigned-short subtraction for operands below `65536`).
* External collaborators (the terminal colour-escape encoder
  `shellColourCode`, `makeDateTimeString`, `getTerminalWidth`) are pure
  inputs, bundled in `ComposeEnv`: the SGR strings are whatever the encoder
  returns for the corresponding `TextProperties` arguments and stream.
* File I/O always succeeds (no-failure model).  The log file is a list of
  abstract `FileEvent`s: one `headerBlock` per header block written by
  `Logger::prepareLogFile` (the dash rule / name / timestamp / dash rule
  group), one `msgLine` per queued message written by `Logger::flush`.
* The `while (std::getline(...))` outer loop always terminates (it consumes
  the input stream), but the inner splitting `while` loop of
  `Logger::composeMessage` need not (its step is `startI += al` and `al`
  can be `0`), so that loop is given explicit fuel: `none` means the loop
  did not finish within the given fuel.
-/

/-- `Logger::Status` (logger.hpp:66). -/
inductive Status where
  | OK
  | NO_LOG_FILE
  | OP_FAILED
  | INVALID_USE
deriving DecidableEq

/-- Flag bit `Logger::coloured` (logger.hpp:70). -/
def coloured : Nat := 1

/-- Flag bit `Logger::logDate` (logger.hpp:71). -/
def logDate : Nat := 2

/-- Flag bit `Logger::logTime` (logger.hpp:72). -/
def logTime : Nat := 4

/-- Flag bit `Logger::breakLinesTTY` (logger.hpp:73). -/
def breakLinesTTY : Nat := 8

/-- Flag bit `Logger::breakLinesFile` (logger.hpp:74). -/
def breakLinesFile : Nat := 16

/-- Flag bit `Logger::doExtraIndent` (logger.hpp:75). -/
def doExtraIndent : Nat := 32

/-- The C++ test `props->flags & bit` used as a boolean. -/
def testFlag (flags bit : Nat) : Bool := flags &&& bit != 0

/-- `Logger::Properties` (logger.hpp:78-89).  The C++ fields `indent`,
`maxLineLengthTTY`, `maxLineLengthFile` have type `unsigned short`; theorems
that depend on the 16-bit range state it as a hypothesis. -/
structure Properties where
  flags : Nat
  indent : Nat
  maxLineLengthTTY : Nat
  maxLineLengthFile : Nat
deriving DecidableEq

/-- `Logger::getDefaultProperties()` (logger.hpp:372-376). -/
def defaultProperties : Properties :=
  { flags := coloured ||| logTime ||| breakLinesTTY ||| breakLinesFile ||| doExtraIndent
    indent := 0
    maxLineLengthTTY := 0
    maxLineLengthFile := 0 }

/-- Unsigned-short subtraction `a - b` for `a b < 65536`: the C++ operands are
promoted to `int`, subtracted, and converted back modulo `2^16`. -/
def usub16 (a b : Nat) : Nat := (a + 65536 - b) % 65536

/-- Ambient inputs of `Logger::composeMessage`: the date-time string returned
by `makeDateTimeString`, the width returned by `getTerminalWidth`, and the
escape sequences returned by `shellColourCode` at its four distinct
`TextProperties` arguments (bright red for the ERROR tag, yellow for the file
name, green for the line number, and the empty properties used as reset). -/
structure ComposeEnv where
  dateTime : List Char
  termWidth : Nat
  sgrError : List Char
  sgrReset : List Char
  sgrYellow : List Char
  sgrGreen : List Char

/-- Maximum line length selection of `Logger::composeMessage`
(logger.cpp:366-380): default `80`, overridden per destination from the
properties, falling back to the TTY value and then the terminal width when a
configured width is `0`. -/
def selectMaxLineLength (toFile : Bool) (props : Properties) (termWidth : Nat) : Nat :=
  if toFile && testFlag props.flags breakLinesFile then
    if props.maxLineLengthFile = 0 then
      if props.maxLineLengthTTY = 0 then termWidth else props.maxLineLengthTTY
    else props.maxLineLengthFile
  else if !toFile && testFlag props.flags breakLinesTTY then
    if props.maxLineLengthTTY = 0 then termWidth else props.maxLineLengthTTY
  else 80

/-- The effective maximum line width used for splitting, after the
`maxLineLength -= indentWidth` of logger.cpp:389-393.  The subtraction is the
unsigned-short one: it wraps modulo `2^16`, it is not clamped. -/
def effectiveMaxLineLength (toFile : Bool) (props : Properties) (termWidth : Nat) : Nat :=
  let m := selectMaxLineLength toFile props termWidth
  if props.indent ≠ 0 then usub16 m props.indent else m

/-- The clamp of `extraIndentWidth` (logger.cpp:465-466): values above
`maxLineLength*2/3` are replaced by `maxLineLength*1/3`. -/
def clampExtraIndent (mll eiw0 : Nat) : Nat :=
  if eiw0 > mll * 2 / 3 then mll * 1 / 3 else eiw0

/-- The prefix part of `Logger::composeMessage` (logger.cpp:382-459): indent,
optional date/time, optional ERROR tag, optional `[file | line | function()]: `
tag, together with the accumulated byte length of the inserted SGR escape
sequences (`lengthSGRs`).  Returns `(ss, lengthSGRs)`. -/
def composeHeader (env : ComposeEnv) (props : Properties) (file : List Char) (line : Nat)
    (function : List Char) (error toFile : Bool) : List Char × Nat :=
  let colour := !toFile && testFlag props.flags coloured
  let ss0 : List Char := if props.indent ≠ 0 then List.replicate props.indent ' ' else []
  let ss1 :=
    if toFile && (testFlag props.flags logDate || testFlag props.flags logTime) then
      ss0 ++ '(' :: (env.dateTime ++ [')', ' '])
    else ss0
  let p2 : List Char × Nat :=
    if error then
      let a := if colour then (ss1 ++ env.sgrError, env.sgrError.length) else (ss1, 0)
      let b := (a.1 ++ (" ERROR  ".toList), a.2)
      if colour then (b.1 ++ env.sgrReset, b.2 + env.sgrReset.length) else b
    else (ss1, 0)
  let p3 : List Char × Nat :=
    if file.length ≠ 0 then
      let a := (p2.1 ++ ['['], p2.2)
      let b := if colour then (a.1 ++ env.sgrYellow, a.2 + env.sgrYellow.length) else a
      let c := (b.1 ++ file, b.2)
      let d := if colour then (c.1 ++ env.sgrReset, c.2 + env.sgrReset.length) else c
      let e := (d.1 ++ (" | ".toList), d.2)
      let f := if colour then (e.1 ++ env.sgrGreen, e.2 + env.sgrGreen.length) else e
      let g := (f.1 ++ (Nat.repr line).toList, f.2)
      let h := if colour then (g.1 ++ env.sgrReset, g.2 + env.sgrReset.length) else g
      if function.length ≠ 0 then (h.1 ++ (" | ".toList), h.2)
      else (h.1 ++ ("]: ".toList), h.2)
    else p2
  if function.length ≠ 0 then
    let a := if file.length = 0 then (p3.1 ++ ['['], p3.2) else p3
    (a.1 ++ function ++ ("()]: ".toList), a.2)
  else p3

/-- The `ss` accumulated by the prefix part of `Logger::composeMessage`. -/
def headerOf (env : ComposeEnv) (props : Properties) (file : List Char) (line : Nat)
    (function : List Char) (error toFile : Bool) : List Char :=
  (composeHeader env props file line function error toFile).1

/-- The `lengthSGRs` accumulated by the prefix part of `Logger::composeMessage`. -/
def sgrLenOf (env : ComposeEnv) (props : Properties) (file : List Char) (line : Nat)
    (function : List Char) (error toFile : Bool) : Nat :=
  (composeHeader env props file line function error toFile).2

/-- `extraIndentWidth` after the cast to `unsigned short` and the clamp
(logger.cpp:462-466). -/
def eiwOf (env : ComposeEnv) (props : Properties) (file : List Char) (line : Nat)
    (function : List Char) (error toFile : Bool) : Nat :=
  clampExtraIndent (effectiveMaxLineLength toFile props env.termWidth)
    (((headerOf env props file line function error toFile).length - props.indent
      - sgrLenOf env props file line function error toFile) % 65536)

/-- The available length `al = maxLineLength - extraIndentWidth`
(logger.cpp:489 and 504), in unsigned-short arithmetic. -/
def availOf (env : ComposeEnv) (props : Properties) (file : List Char) (line : Nat)
    (function : List Char) (error toFile : Bool) : Nat :=
  usub16 (effectiveMaxLineLength toFile props env.termWidth)
    (eiwOf env props file line function error toFile)

/-- The sequence of logical lines produced by
`while (std::getline(iss, lineStr, '\n'))` (logger.cpp:482 and 521):
segments between newline characters; a trailing newline produces no final
empty segment, and an empty message produces no segment at all.
`splitOnNl` is the plain split (k newlines give k+1 segments). -/
def splitOnNl : List Char → List (List Char)
  | [] => [[]]
  | c :: rest =>
    if c = '\n' then [] :: splitOnNl rest
    else
      match splitOnNl rest with
      | [] => [[c]]
      | seg :: segs => (c :: seg) :: segs

/-- The logical lines the `std::getline` loop actually yields. -/
def getlines (s : List Char) : List (List Char) :=
  if s = [] then []
  else if s.getLast? = some '\n' then (splitOnNl s).dropLast
  else splitOnNl s

/-- Join a list of lines with single newline characters (inverse of
`splitOnNl`, used to state round-trip properties). -/
def joinNl : List (List Char) → List Char
  | [] => []
  | [l] => l
  | l :: rest => l ++ '\n' :: joinNl rest

/-- The inner splitting loop of `Logger::composeMessage` (logger.cpp:509-512):
`while (startI < lineLength && lineLength-startI > al) { ss << endl << indent
<< extraIndent << lineStr.substr(startI,al); startI += al; }`, with explicit
fuel.  `none` means the loop did not finish within `fuel` iterations; since
the step is `startI += al`, with `al = 0` it never finishes. -/
def splitWhile (al : Nat) (ind ei lineStr : List Char) :
    Nat → Nat → List Char → Option (List Char × Nat)
  | 0, startI, ss =>
    if startI < lineStr.length ∧ lineStr.length - startI > al then none
    else some (ss, startI)
  | fuel + 1, startI, ss =>
    if startI < lineStr.length ∧ lineStr.length - startI > al then
      splitWhile al ind ei lineStr fuel (startI + al)
        (ss ++ '\n' :: (ind ++ ei ++ (lineStr.drop startI).take al))
    else some (ss, startI)

/-- The splitting loop followed by the remainder write of
`Logger::composeMessage` (logger.cpp:508-516): run the `while` loop, then
`if (startI < lineLength) ss << endl << indent << extraIndent
<< lineStr.substr(startI)`. -/
def splitRest (fuel al : Nat) (ind ei lineStr : List Char) (startI : Nat)
    (ss : List Char) : Option (List Char) :=
  match splitWhile al ind ei lineStr fuel startI ss with
  | none => none
  | some (ss2, s2) =>
    if s2 < lineStr.length then some (ss2 ++ '\n' :: (ind ++ ei ++ lineStr.drop s2))
    else some ss2

/-- Processing of one logical line in the line-breaking branch of
`Logger::composeMessage` (logger.cpp:483-516): first-line special case, then
splitting loop and remainder write. -/
def wrapLine (fuel mll eiw : Nat) (doExtra : Bool) (ind ei ss : List Char)
    (firstLine : Bool) (lineStr : List Char) : Option (List Char) :=
  let fa := usub16 mll eiw
  let start : List Char × Nat × Bool :=
    if firstLine then
      if lineStr.length ≤ fa then (ss ++ lineStr, 0, true)
      else (ss ++ lineStr.take fa, fa, false)
    else (ss, 0, false)
  if start.2.2 then some start.1
  else
    let al := if doExtra then usub16 mll eiw else mll
    splitRest fuel al ind ei lineStr start.2.1 start.1

/-- The line-breaking branch of `Logger::composeMessage` over all logical
lines (logger.cpp:482-517); `firstLine` is cleared after the first line. -/
def wrapLines (fuel mll eiw : Nat) (doExtra : Bool) (ind ei : List Char) :
    List Char → Bool → List (List Char) → Option (List Char)
  | ss, _, [] => some ss
  | ss, firstLine, l :: rest =>
    match wrapLine fuel mll eiw doExtra ind ei ss firstLine l with
    | none => none
    | some ss2 => wrapLines fuel mll eiw doExtra ind ei ss2 false rest

/-- The non-breaking branch of `Logger::composeMessage` (logger.cpp:520-529):
lines after the first are prefixed with `endl << indent << extraIndent`. -/
def noWrapLines (ind ei : List Char) : List Char → Bool → List (List Char) → List Char
  | ss, _, [] => ss
  | ss, true, l :: rest => noWrapLines ind ei (ss ++ l) false rest
  | ss, false, l :: rest => noWrapLines ind ei (ss ++ '\n' :: (ind ++ ei ++ l)) false rest

/-- `Logger::composeMessage` (logger.cpp:347-533).  `fuel` bounds the inner
splitting loop; `none` means that loop did not terminate within the fuel. -/
def composeMessage (fuel : Nat) (env : ComposeEnv) (props : Properties) (file : List Char)
    (line : Nat) (function : List Char) (message : List Char) (error toFile : Bool) :
    Option (List Char) :=
  let mll := effectiveMaxLineLength toFile props env.termWidth
  let hs := composeHeader env props file line function error toFile
  let eiw := clampExtraIndent mll ((hs.1.length - props.indent - hs.2) % 65536)
  let ind : List Char := if props.indent ≠ 0 then List.replicate props.indent ' ' else []
  let ei : List Char :=
    if testFlag props.flags doExtraIndent then List.replicate eiw ' ' else []
  if (toFile && testFlag props.flags breakLinesFile)
      || (!toFile && testFlag props.flags breakLinesTTY) then
    wrapLines fuel mll eiw (testFlag props.flags doExtraIndent) ind ei hs.1 true
      (getlines message)
  else
    some (noWrapLines ind ei hs.1 true (getlines message))

/-- Reference chunking of a line into pieces of `al` characters (the shape the
splitting loop produces when first-line width and continuation width agree). -/
def chunksOf (al : Nat) (l : List Char) : List (List Char) :=
  if _h : al = 0 ∨ l.length ≤ al then [l]
  else l.take al :: chunksOf al (l.drop al)
termination_by l.length
decreasing_by
  simp only [List.length_drop]
  omega

/-- One abstract write to the log file: a session header block written by
`Logger::prepareLogFile` (logger.cpp:123-130), or one queued message written
by `Logger::flush` (logger.cpp:177). -/
inductive FileEvent where
  | headerBlock (logName : List Char)
  | msgLine (s : List Char)
deriving DecidableEq

/-- The mutable state of a `Logger` instance (logger.hpp:402-416), without the
mutex (modelled separately where a claim is about locking). -/
structure LoggerState where
  messages : List (List Char)
  logFileName : List Char
  outputProps : Properties
  maxQueueLength : Nat
  append : Bool
  firstWrite : Bool
deriving DecidableEq

/-- `Logger::Logger(Properties const&)` (logger.cpp:18-20). -/
def mkLoggerNoFile (p : Properties) : LoggerState :=
  { messages := [], logFileName := [], outputProps := p, maxQueueLength := 10
    append := true, firstWrite := true }

/-- `Logger::Logger(std::string const&, bool, Properties const&)`
(logger.cpp:23-26). -/
def mkLogger (fname : List Char) (app : Bool) (p : Properties) : LoggerState :=
  { messages := [], logFileName := fname, outputProps := p, maxQueueLength := 10
    append := app, firstWrite := true }

/-- `Logger::prepareLogFile` (logger.cpp:88-147) in the no-I/O-failure model,
state and file effect only (locking is modelled by `prepareLogFileLock`).
Opening with `ios::trunc` (append = false) erases the file first; the header
block is then written and `firstWrite` is cleared.  There is no
`firstWrite`/`headerWritten` guard: a header block is written on every call
with a configured file. -/
def prepareLogFileM (st : LoggerState) (fileC : List FileEvent) (logName : List Char) :
    Status × LoggerState × List FileEvent :=
  if st.logFileName.length = 0 then (Status.NO_LOG_FILE, st, fileC)
  else
    let opened := if st.append then fileC else []
    (Status.OK, { st with firstWrite := false },
      opened ++ [FileEvent.headerBlock logName])

/-- `Logger::flush` (logger.cpp:149-194) in the no-I/O-failure model: early
returns on no file / empty queue; `prepareLogFile(std::string(), true)` when
`firstWrite`; then every queued message is written in FIFO order and the
queue is drained. -/
def flushM (st : LoggerState) (fileC : List FileEvent) :
    Status × LoggerState × List FileEvent :=
  if st.logFileName.length = 0 then (Status.NO_LOG_FILE, st, fileC)
  else if st.messages.length = 0 then (Status.OK, st, fileC)
  else
    let r :=
      if st.firstWrite then
        let p := prepareLogFileM st fileC []
        (p.2.1, p.2.2)
      else (st, fileC)
    (Status.OK, { r.1 with messages := [] },
      r.2 ++ r.1.messages.map FileEvent.msgLine)

/-- `Logger::logRaw` (logger.cpp:229-235): push the message, then flush if the
queue length reached `maxQueueLength`. -/
def logRawM (st : LoggerState) (fileC : List FileEvent) (message : List Char) :
    Status × LoggerState × List FileEvent :=
  let st1 := { st with messages := st.messages ++ [message] }
  if st1.messages.length ≥ st.maxQueueLength then flushM st1 fileC
  else (Status.OK, st1, fileC)

/-- `Logger::logMessage` (logger.cpp:261-270): push
`composeMessage(file, line, function, message, false, true, props)` (with
`props = nullptr` resolved to the instance properties), then flush at the
threshold — i.e. the same enqueue step as `logRaw` applied to the rendered
string.  `none` propagates divergence of `composeMessage`. -/
def logMessageM (fuel : Nat) (env : ComposeEnv) (st : LoggerState) (fileC : List FileEvent)
    (file : List Char) (line : Nat) (function : List Char) (message : List Char)
    (props : Option Properties) : Option (Status × LoggerState × List FileEvent) :=
  match composeMessage fuel env (props.getD st.outputProps) file line function message
      false true with
  | none => none
  | some rendered => some (logRawM st fileC rendered)

/-- `Logger::logError` (logger.cpp:296-305): as `logMessage` with
`error = true`. -/
def logErrorM (fuel : Nat) (env : ComposeEnv) (st : LoggerState) (fileC : List FileEvent)
    (file : List Char) (line : Nat) (function : List Char) (message : List Char)
    (props : Option Properties) : Option (Status × LoggerState × List FileEvent) :=
  match composeMessage fuel env (props.getD st.outputProps) file line function message
      true true with
  | none => none
  | some rendered => some (logRawM st fileC rendered)

/-- `Logger::setLogFile` (logger.cpp:67-81): flush under the old file if one
was set, then install the new name and mode and reset `firstWrite`. -/
def setLogFileM (st : LoggerState) (fileC : List FileEvent) (fname : List Char)
    (app : Bool) : Status × LoggerState × List FileEvent :=
  let r :=
    if st.logFileName.length ≠ 0 then
      let f := flushM st fileC
      (f.1, f.2.1, f.2.2)
    else (Status.OK, st, fileC)
  (r.1, { r.2.1 with logFileName := fname, append := app, firstWrite := true }, r.2.2)

/-- One queue-affecting operation on a `Logger`: `log` is the enqueue step
shared by `logRaw`/`logMessage`/`logError` (each of them pushes one rendered
string and auto-flushes at the threshold; the `show*` half of the `report*`
functions never touches the queue or the file), `flush` is an explicit
`Logger::flush()` call (also issued by the destructor, logger.cpp:30-32). -/
inductive LogOp where
  | log (msg : List Char)
  | flush
deriving DecidableEq

/-- Effect of one `LogOp` on the state and file. -/
def stepOp (st : LoggerState) (fileC : List FileEvent) : LogOp → LoggerState × List FileEvent
  | LogOp.log m =>
    let r := logRawM st fileC m
    (r.2.1, r.2.2)
  | LogOp.flush =>
    let r := flushM st fileC
    (r.2.1, r.2.2)

/-- Run a sequence of operations. -/
def runOps (st : LoggerState) (fileC : List FileEvent) : List LogOp → LoggerState × List FileEvent
  | [] => (st, fileC)
  | op :: ops =>
    let r := stepOp st fileC op
    runOps r.1 r.2 ops

/-- Number of header blocks in the file. -/
def headerCount (f : List FileEvent) : Nat :=
  f.countP fun e =>
    match e with
    | FileEvent.headerBlock _ => true
    | FileEvent.msgLine _ => false

/-- The message lines in the file, in order. -/
def msgLines (f : List FileEvent) : List (List Char) :=
  f.filterMap fun e =>
    match e with
    | FileEvent.headerBlock _ => none
    | FileEvent.msgLine s => some s

/-- Lock behaviour of `Logger::prepareLogFile` (logger.cpp:88-147) in the
no-I/O-failure model.  The call starts without holding the instance mutex;
the returned `Bool` is whether the mutex is still held by this call when it
returns.  With `skipLock = false` the mutex is taken at logger.cpp:89-90; the
`NO_LOG_FILE` early return at logger.cpp:92-93 returns without unlocking,
while the success path unlocks at logger.cpp:144-145. -/
def prepareLogFileLock (st : LoggerState) (skipLock : Bool) : Status × Bool :=
  let locked := !skipLock
  if st.logFileName.length = 0 then (Status.NO_LOG_FILE, locked)
  else (Status.OK, if !skipLock then false else locked)

/-- Lock behaviour of `Logger::flush` (logger.cpp:149-194) in the
no-I/O-failure model: both early returns happen before the mutex is taken
(logger.cpp:150-154 precede 156-157), and the write path unlocks at
logger.cpp:191-192. -/
def flushLock (st : LoggerState) (skipLock : Bool) : Status × Bool :=
  if st.logFileName.length = 0 then (Status.NO_LOG_FILE, false)
  else if st.messages.length = 0 then (Status.OK, false)
  else
    let locked := !skipLock
    (Status.OK, if !skipLock then false else locked)

/-- For operands below `2^16`, unsigned-short subtraction with `b ≤ a` is
plain subtraction. -/
theorem usub16_of_le (a b : Nat) (hba : b ≤ a) (ha : a < 65536) : usub16 a b = a - b := by
  unfold usub16
  have h1 : a + 65536 - b = (a - b) + 65536 := by omega
  rw [h1, Nat.add_mod_right, Nat.mod_eq_of_lt (by omega)]

/-- For operands below `2^16` with `a < b`, unsigned-short subtraction wraps:
the result is `65536 + a - b`, which exceeds `a`. -/
theorem usub16_of_gt (a b : Nat) (hab : a < b) (hb : b < 65536) :
    usub16 a b = 65536 + a - b ∧ a < usub16 a b := by
  unfold usub16
  have h1 : a + 65536 - b < 65536 := by omega
  rw [Nat.mod_eq_of_lt h1]
  omega

/-- `usub16` always lands below `2^16`. -/
theorem usub16_lt (a b : Nat) : usub16 a b < 65536 := by
  unfold usub16
  exact Nat.mod_lt _ (by omega)

/-- The clamped extra indent width never exceeds the maximum line length. -/
theorem clampExtraIndent_le (m x : Nat) : clampExtraIndent m x ≤ m := by
  unfold clampExtraIndent
  split
  · calc m * 1 / 3 ≤ m * 3 / 3 := Nat.div_le_div_right (by omega)
    _ = m := Nat.mul_div_cancel m (by omega)
  · rename_i h
    calc x ≤ m * 2 / 3 := by omega
    _ ≤ m * 3 / 3 := Nat.div_le_div_right (by omega)
    _ = m := Nat.mul_div_cancel m (by omega)

/-- `splitOnNl` never yields the empty list of segments. -/
theorem splitOnNl_ne_nil (l : List Char) : splitOnNl l ≠ [] := by
  cases l with
  | nil => simp [splitOnNl]
  | cons c rest =>
    unfold splitOnNl
    split
    · simp
    · split <;> simp

/-- A newline-free list is a single segment. -/
theorem splitOnNl_no_nl (l : List Char) (h : '\n' ∉ l) : splitOnNl l = [l] := by
  induction l with
  | nil => rfl
  | cons c rest ih =>
    unfold splitOnNl
    have hc : ¬ c = '\n' := by
      intro hc
      exact h (by simp [hc])
    rw [if_neg hc]
    have hrest : '\n' ∉ rest := fun hm => h (List.mem_cons_of_mem _ hm)
    rw [ih hrest]

/-- Unfolding `splitOnNl` on a non-newline head. -/
theorem splitOnNl_cons_of_ne (c : Char) (rest seg : List Char) (segs : List (List Char))
    (hc : ¬ c = '\n') (h : splitOnNl rest = seg :: segs) :
    splitOnNl (c :: rest) = (c :: seg) :: segs := by
  conv_lhs => rw [splitOnNl]
  rw [if_neg hc, h]

/-- Splitting at the first newline after a newline-free block. -/
theorem splitOnNl_append_nl (a b : List Char) (h : '\n' ∉ a) :
    splitOnNl (a ++ '\n' :: b) = a :: splitOnNl b := by
  induction a with
  | nil => simp [splitOnNl]
  | cons c rest ih =>
    have hc : ¬ c = '\n' := by
      intro hc
      exact h (by simp [hc])
    have hrest : '\n' ∉ rest := fun hm => h (List.mem_cons_of_mem _ hm)
    simp only [List.cons_append]
    exact splitOnNl_cons_of_ne c (rest ++ '\n' :: b) rest (splitOnNl b) hc (ih hrest)

/-- `joinNl` un-splits `splitOnNl`. -/
theorem joinNl_splitOnNl (l : List Char) : joinNl (splitOnNl l) = l := by
  induction l with
  | nil => rfl
  | cons c rest ih =>
    unfold splitOnNl
    by_cases hc : c = '\n'
    · rw [if_pos hc]
      obtain ⟨seg, segs, hss⟩ : ∃ seg segs, splitOnNl rest = seg :: segs := by
        cases hs : splitOnNl rest with
        | nil => exact absurd hs (splitOnNl_ne_nil rest)
        | cons seg segs => exact ⟨seg, segs, rfl⟩
      rw [hss]
      rw [hss] at ih
      simp only [joinNl, List.nil_append]
      rw [ih, hc]
    · rw [if_neg hc]
      cases hs : splitOnNl rest with
      | nil => exact absurd hs (splitOnNl_ne_nil rest)
      | cons seg segs =>
        rw [hs] at ih
        cases segs with
        | nil =>
          simp only [joinNl] at ih ⊢
          rw [ih]
        | cons s2 t =>
          simp only [joinNl] at ih ⊢
          rw [List.cons_append, ih]

/-- Last element of a list is a member. -/
theorem getLast?_mem_of_eq (l : List Char) (a : Char) (h : l.getLast? = some a) : a ∈ l := by
  induction l with
  | nil => simp [List.getLast?] at h
  | cons c rest ih =>
    cases rest with
    | nil =>
      simp [List.getLast?] at h
      simp [h]
    | cons d t =>
      rw [List.getLast?_cons_cons] at h
      exact List.mem_cons_of_mem _ (ih h)

/-- A nonempty newline-free message is one logical line. -/
theorem getlines_no_nl (s : List Char) (hnl : '\n' ∉ s) (hne : s ≠ []) :
    getlines s = [s] := by
  unfold getlines
  rw [if_neg hne, if_neg, splitOnNl_no_nl s hnl]
  intro h
  exact hnl (getLast?_mem_of_eq s '\n' h)

/-- For a message with no trailing newline, joining the logical lines with
newlines reproduces the message. -/
theorem joinNl_getlines (s : List Char) (h : s.getLast? ≠ some '\n') :
    joinNl (getlines s) = s := by
  unfold getlines
  by_cases hs : s = []
  · rw [if_pos hs, hs]
    rfl
  · rw [if_neg hs, if_neg h]
    exact joinNl_splitOnNl s

/-- Unfolding `chunksOf` in the terminal case. -/
theorem chunksOf_base (al : Nat) (l : List Char) (h : al = 0 ∨ l.length ≤ al) :
    chunksOf al l = [l] := by
  rw [chunksOf, dif_pos h]

/-- Unfolding `chunksOf` in the splitting case. -/
theorem chunksOf_step (al : Nat) (l : List Char) (hal : 0 < al) (hl : al < l.length) :
    chunksOf al l = l.take al :: chunksOf al (l.drop al) := by
  rw [chunksOf, dif_neg (by omega)]

/-- The chunks concatenate back to the original line. -/
theorem chunksOf_join (al : Nat) : ∀ (n : Nat) (l : List Char), l.length ≤ n →
    (chunksOf al l).flatten = l := by
  intro n
  induction n with
  | zero =>
    intro l hl
    have : l = [] := List.length_eq_zero.mp (by omega)
    subst this
    simp [chunksOf_base al [] (Or.inr (by simp))]
  | succ n ih =>
    intro l hl
    by_cases h : al = 0 ∨ l.length ≤ al
    · simp [chunksOf_base al l h]
    · push_neg at h
      rw [chunksOf_step al l (by omega) (by omega)]
      simp only [List.flatten_cons]
      rw [ih (l.drop al) (by simp [List.length_drop]; omega)]
      exact List.take_append_drop al l

/-- Every chunk has length at most `al`. -/
theorem chunksOf_chunk_le (al : Nat) (hal : 0 < al) :
    ∀ (n : Nat) (l : List Char), l.length ≤ n → ∀ c ∈ chunksOf al l, c.length ≤ al := by
  intro n
  induction n with
  | zero =>
    intro l hl c hc
    have : l = [] := List.length_eq_zero.mp (by omega)
    subst this
    rw [chunksOf_base al [] (Or.inr (by simp))] at hc
    simp at hc
    simp [hc]
  | succ n ih =>
    intro l hl c hc
    by_cases h : l.length ≤ al
    · rw [chunksOf_base al l (Or.inr h)] at hc
      simp at hc
      subst hc
      omega
    · push_neg at h
      rw [chunksOf_step al l hal (by omega)] at hc
      rcases List.mem_cons.mp hc with hc | hc
      · subst hc
        simp [List.length_take]
      · exact ih (l.drop al) (by simp [List.length_drop]; omega) c hc

/-- The number of chunks is `⌈length / al⌉` for a nonempty line. -/
theorem chunksOf_length (al : Nat) (hal : 0 < al) :
    ∀ (n : Nat) (l : List Char), 0 < l.length → l.length ≤ n →
    (chunksOf al l).length = (l.length + al - 1) / al := by
  intro n
  induction n with
  | zero =>
    intro l h0 hl
    omega
  | succ n ih =>
    intro l h0 hl
    by_cases h : l.length ≤ al
    · rw [chunksOf_base al l (Or.inr h)]
      have : (l.length + al - 1) / al = 1 := by
        apply Nat.div_eq_of_lt_le (by omega) (by omega)
      simp [this]
    · push_neg at h
      rw [chunksOf_step al l hal (by omega)]
      simp only [List.length_cons]
      rw [ih (l.drop al) (by simp [List.length_drop]; omega)
        (by simp [List.length_drop]; omega)]
      simp only [List.length_drop]
      have h3 : l.length - al + al - 1 = l.length - 1 := by omega
      have h2 : l.length + al - 1 = l.length - 1 + al := by omega
      rw [h3, h2, Nat.add_div_right _ hal]

/-- Every element of a chunk is an element of the line. -/
theorem chunksOf_chunk_subset (al : Nat) (l c : List Char) (hc : c ∈ chunksOf al l) :
    ∀ x ∈ c, x ∈ l := by
  intro x hx
  have hj : x ∈ (chunksOf al l).flatten := List.mem_flatten.mpr ⟨c, hc, hx⟩
  rwa [chunksOf_join al l.length l le_rfl] at hj

/-- With available length `0` and characters remaining, the splitting loop of
`Logger::composeMessage` makes no progress (`startI += 0`): it never
finishes, whatever the fuel. -/
theorem splitWhile_zero (ind ei lineStr : List Char) :
    ∀ (fuel startI : Nat) (ss : List Char), startI < lineStr.length →
    splitWhile 0 ind ei lineStr fuel startI ss = none := by
  intro fuel
  induction fuel with
  | zero =>
    intro startI ss h
    rw [splitWhile, if_pos ⟨h, by omega⟩]
  | succ n ih =>
    intro startI ss h
    rw [splitWhile, if_pos ⟨h, by omega⟩]
    exact ih (startI + 0) _ (by omega)

/-- With characters remaining and available length `0`, the loop-plus-
remainder block diverges (it inherits the divergence of the loop). -/
theorem splitRest_zero (fuel : Nat) (ind ei l : List Char) (startI : Nat) (ss : List Char)
    (h : startI < l.length) : splitRest fuel 0 ind ei l startI ss = none := by
  unfold splitRest
  rw [splitWhile_zero ind ei l fuel startI ss h]

/-- With positive available length, the splitting loop plus the remainder
write of `Logger::composeMessage` produce exactly the `al`-character chunks
of the unprocessed part of the line, each behind a newline and the
`indent ++ extraIndent` prefix. -/
theorem splitRest_spec (al : Nat) (ind ei lineStr : List Char) (hal : 0 < al) :
    ∀ (fuel startI : Nat) (ss : List Char), startI < lineStr.length →
    lineStr.length - startI ≤ fuel →
    splitRest fuel al ind ei lineStr startI ss
    = some (ss ++ ((chunksOf al (lineStr.drop startI)).map
        (fun c => '\n' :: (ind ++ ei ++ c))).flatten) := by
  intro fuel
  induction fuel with
  | zero =>
    intro startI ss h1 h2
    omega
  | succ n ih =>
    intro startI ss h1 h2
    by_cases hg : startI < lineStr.length ∧ lineStr.length - startI > al
    · have hstep : splitRest (n + 1) al ind ei lineStr startI ss
          = splitRest n al ind ei lineStr (startI + al)
            (ss ++ '\n' :: (ind ++ ei ++ (lineStr.drop startI).take al)) := by
        unfold splitRest
        rw [splitWhile, if_pos hg]
      rw [hstep, ih (startI + al) _ (by omega) (by omega)]
      rw [chunksOf_step al (lineStr.drop startI) hal
        (by simp [List.length_drop]; omega)]
      rw [show (lineStr.drop startI).drop al = lineStr.drop (startI + al) by
        rw [List.drop_drop, Nat.add_comm]]
      simp [List.append_assoc]
    · have hstep : splitRest (n + 1) al ind ei lineStr startI ss
          = if startI < lineStr.length then
              some (ss ++ '\n' :: (ind ++ ei ++ lineStr.drop startI))
            else some ss := by
        unfold splitRest
        rw [splitWhile, if_neg hg]
      rw [hstep, if_pos h1]
      rw [chunksOf_base al (lineStr.drop startI)
        (Or.inr (by simp [List.length_drop]; omega))]
      simp

/-- `splitOnNl` of a rendered block: a newline-free first physical line
followed by newline-prefixed continuation lines. -/
theorem splitOnNl_rendered (p : List Char) (hp : '\n' ∉ p) :
    ∀ (chunks : List (List Char)) (first : List Char), '\n' ∉ first →
    (∀ c ∈ chunks, '\n' ∉ c) →
    splitOnNl (first ++ (chunks.map (fun x => '\n' :: (p ++ x))).flatten)
      = first :: chunks.map (fun x => p ++ x) := by
  intro chunks
  induction chunks with
  | nil =>
    intro first h1 _
    simp [splitOnNl_no_nl first h1]
  | cons c t ih =>
    intro first h1 h2
    simp only [List.map_cons, List.flatten_cons, List.cons_append]
    rw [splitOnNl_append_nl first _ h1]
    rw [ih (p ++ c)
      (by
        intro hm
        rcases List.mem_append.mp hm with hm | hm
        · exact hp hm
        · exact h2 c (List.mem_cons_self c t) hm)
      (fun d hd => h2 d (List.mem_cons_of_mem _ hd))]

/-- Unrolling the non-first-line case of the non-breaking branch. -/
theorem noWrapLines_false (ind ei : List Char) :
    ∀ (lines : List (List Char)) (ss : List Char),
    noWrapLines ind ei ss false lines
      = ss ++ (lines.map (fun l => '\n' :: (ind ++ ei ++ l))).flatten := by
  intro lines
  induction lines with
  | nil =>
    intro ss
    simp [noWrapLines]
  | cons l t ih =>
    intro ss
    rw [noWrapLines, ih]
    simp [List.append_assoc]

/-- Joining with newline prefixes equals `joinNl`. -/
theorem flatten_map_cons_nl :
    ∀ (t : List (List Char)) (l : List Char),
    l ++ (t.map (fun x => '\n' :: x)).flatten = joinNl (l :: t) := by
  intro t
  induction t with
  | nil =>
    intro l
    simp [joinNl]
  | cons x t2 ih =>
    intro l
    simp only [List.map_cons, List.flatten_cons, List.cons_append]
    rw [joinNl, ← ih x]
    simp

/-- With no indentation at all, the non-breaking branch joins the logical
lines back with plain newlines. -/
theorem noWrapLines_nil_ind (ss : List Char) (lines : List (List Char)) :
    noWrapLines [] [] ss true lines = ss ++ joinNl lines := by
  cases lines with
  | nil => simp [noWrapLines, joinNl]
  | cons l t =>
    rw [noWrapLines, noWrapLines_false]
    simp only [List.nil_append]
    rw [List.append_assoc, flatten_map_cons_nl t l]

/-- `Logger::prepareLogFile` with a configured file, in the no-failure model:
it returns `OK`, writes one header block (truncating first when not in
append mode) and clears `firstWrite` — with no guard on `firstWrite`. -/
theorem prepareLogFileM_spec (st : LoggerState) (fileC : List FileEvent) (name : List Char)
    (h : st.logFileName.length ≠ 0) :
    prepareLogFileM st fileC name
      = (Status.OK, { st with firstWrite := false },
         (if st.append then fileC else []) ++ [FileEvent.headerBlock name]) := by
  unfold prepareLogFileM
  rw [if_neg h]

/-- `Logger::flush` with a configured file and empty queue is a no-op `OK`. -/
theorem flushM_empty (st : LoggerState) (fileC : List FileEvent)
    (h : st.logFileName.length ≠ 0) (hq : st.messages = []) :
    flushM st fileC = (Status.OK, st, fileC) := by
  unfold flushM
  rw [if_neg h, if_pos (by simp [hq])]

/-- `Logger::flush` with a configured file and nonempty queue: a header block
is written first iff `firstWrite` was still set, then all queued messages in
FIFO order; the queue is drained and `firstWrite` cleared. -/
theorem flushM_spec (st : LoggerState) (fileC : List FileEvent)
    (h : st.logFileName.length ≠ 0) (hq : st.messages ≠ []) :
    flushM st fileC
      = (Status.OK, { st with messages := [], firstWrite := false },
         (if st.firstWrite then
            (if st.append then fileC else []) ++ [FileEvent.headerBlock []]
          else fileC) ++ st.messages.map FileEvent.msgLine) := by
  unfold flushM
  rw [if_neg h, if_neg (by simp [hq])]
  by_cases hf : st.firstWrite = true
  · rw [prepareLogFileM_spec st fileC [] h]
    simp [hf]
  · have hf' : st.firstWrite = false := by simpa using hf
    cases st
    simp_all

/-- `Logger::logRaw` below the threshold just appends to the queue. -/
theorem logRawM_below (st : LoggerState) (fileC : List FileEvent) (m : List Char)
    (h : st.messages.length + 1 < st.maxQueueLength) :
    logRawM st fileC m = (Status.OK, { st with messages := st.messages ++ [m] }, fileC) := by
  unfold logRawM
  rw [if_neg (show ¬ (st.messages ++ [m]).length ≥ st.maxQueueLength by
    simp [List.length_append]
    omega)]

/-- `Logger::logRaw` at the threshold pushes and immediately flushes. -/
theorem logRawM_thresh (st : LoggerState) (fileC : List FileEvent) (m : List Char)
    (h : st.maxQueueLength ≤ st.messages.length + 1) :
    logRawM st fileC m = flushM { st with messages := st.messages ++ [m] } fileC := by
  unfold logRawM
  rw [if_pos (show (st.messages ++ [m]).length ≥ st.maxQueueLength by
    simp [List.length_append]
    omega)]

/-- The queue-affecting operations never change the file name, the queue
bound, or the append mode of the logger. -/
theorem stepOp_fields (st : LoggerState) (f : List FileEvent) (op : LogOp) :
    (stepOp st f op).1.logFileName = st.logFileName
    ∧ (stepOp st f op).1.maxQueueLength = st.maxQueueLength
    ∧ (stepOp st f op).1.append = st.append := by
  cases op with
  | log m =>
    simp only [stepOp, logRawM, flushM, prepareLogFileM]
    repeat' split
    all_goals simp
  | flush =>
    simp only [stepOp, flushM, prepareLogFileM]
    repeat' split
    all_goals simp

/-- `headerCount` distributes over append. -/
theorem headerCount_append (a b : List FileEvent) :
    headerCount (a ++ b) = headerCount a + headerCount b := by
  unfold headerCount
  exact List.countP_append _ a b

/-- Message lines contribute no header. -/
theorem headerCount_msgLines (l : List (List Char)) :
    headerCount (l.map FileEvent.msgLine) = 0 := by
  induction l with
  | nil => rfl
  | cons x t ih =>
    simp only [List.map_cons]
    unfold headerCount at ih ⊢
    rw [List.countP_cons]
    simp [ih]

/-- A single header block counts one. -/
theorem headerCount_header (name : List Char) :
    headerCount [FileEvent.headerBlock name] = 1 := by
  rfl

/-- `msgLines` distributes over append. -/
theorem msgLines_append (a b : List FileEvent) :
    msgLines (a ++ b) = msgLines a ++ msgLines b := by
  unfold msgLines
  exact List.filterMap_append a b _

/-- A header block contributes no message line. -/
theorem msgLines_header (name : List Char) :
    msgLines [FileEvent.headerBlock name] = [] := by
  rfl

/-- Written messages read back in order. -/
theorem msgLines_map (l : List (List Char)) :
    msgLines (l.map FileEvent.msgLine) = l := by
  induction l with
  | nil => rfl
  | cons x t ih =>
    simp only [List.map_cons]
    unfold msgLines at ih ⊢
    rw [List.filterMap_cons]
    simp [ih]

/-- The empty file has no header. -/
theorem headerCount_nil : headerCount [] = 0 := by
  rfl

/-- Prepending a header block increments the header count. -/
theorem headerCount_cons_header (n : List Char) (l : List FileEvent) :
    headerCount (FileEvent.headerBlock n :: l) = headerCount l + 1 := by
  unfold headerCount
  rw [List.countP_cons]
  simp

/-- Prepending a message line leaves the header count unchanged. -/
theorem headerCount_cons_msg (s : List Char) (l : List FileEvent) :
    headerCount (FileEvent.msgLine s :: l) = headerCount l := by
  unfold headerCount
  rw [List.countP_cons]
  simp

/-- After an effective flush (configured file, nonempty queue), the file holds
exactly one header block and `firstWrite` is cleared, provided the header
invariant held before. -/
theorem flush_header_inv (st : LoggerState) (f : List FileEvent)
    (hfile : st.logFileName.length ≠ 0) (hq : st.messages ≠ [])
    (hinv : (st.firstWrite = true ∧ f = []) ∨
      (st.firstWrite = false ∧ headerCount f = 1)) :
    headerCount (flushM st f).2.2 = 1 ∧ (flushM st f).2.1.firstWrite = false := by
  rw [flushM_spec st f hfile hq]
  refine ⟨?_, by simp⟩
  rcases hinv with ⟨hfw, hfe⟩ | ⟨hfw, hc⟩
  · subst hfe
    rw [hfw]
    simp [headerCount_append, headerCount_msgLines, headerCount_header, headerCount_nil,
      headerCount_cons_header, ite_self]
  · rw [hfw]
    simp [headerCount_append, headerCount_msgLines, hc]

/-- The header invariant is preserved by every queue-affecting operation. -/
theorem stepOp_header_inv (st : LoggerState) (f : List FileEvent) (op : LogOp)
    (hfile : st.logFileName.length ≠ 0)
    (hinv : (st.firstWrite = true ∧ f = []) ∨
      (st.firstWrite = false ∧ headerCount f = 1)) :
    ((stepOp st f op).1.firstWrite = true ∧ (stepOp st f op).2 = []) ∨
    ((stepOp st f op).1.firstWrite = false ∧ headerCount (stepOp st f op).2 = 1) := by
  cases op with
  | flush =>
    by_cases hq : st.messages = []
    · have hst : stepOp st f LogOp.flush = (st, f) := by
        show ((flushM st f).2.1, (flushM st f).2.2) = (st, f)
        rw [flushM_empty st f hfile hq]
      rw [hst]
      exact hinv
    · have h2 := flush_header_inv st f hfile hq hinv
      right
      exact ⟨h2.2, h2.1⟩
  | log m =>
    by_cases ht : st.maxQueueLength ≤ st.messages.length + 1
    · have heq := logRawM_thresh st f m ht
      have h2 := flush_header_inv { st with messages := st.messages ++ [m] } f
        hfile (by simp) hinv
      have hst : stepOp st f (LogOp.log m)
          = ((flushM { st with messages := st.messages ++ [m] } f).2.1,
             (flushM { st with messages := st.messages ++ [m] } f).2.2) := by
        show ((logRawM st f m).2.1, (logRawM st f m).2.2) = _
        rw [heq]
      rw [hst]
      right
      exact ⟨h2.2, h2.1⟩
    · have heq := logRawM_below st f m (by omega)
      have hst : stepOp st f (LogOp.log m)
          = ({ st with messages := st.messages ++ [m] }, f) := by
        show ((logRawM st f m).2.1, (logRawM st f m).2.2) = _
        rw [heq]
      rw [hst]
      exact hinv

/-- The header invariant holds along any run of queue-affecting operations. -/
theorem runOps_header_inv : ∀ (ops : List LogOp) (st : LoggerState) (f : List FileEvent),
    st.logFileName.length ≠ 0 →
    ((st.firstWrite = true ∧ f = []) ∨ (st.firstWrite = false ∧ headerCount f = 1)) →
    (((runOps st f ops).1.firstWrite = true ∧ (runOps st f ops).2 = []) ∨
     ((runOps st f ops).1.firstWrite = false ∧ headerCount (runOps st f ops).2 = 1)) := by
  intro ops
  induction ops with
  | nil =>
    intro st f _ hinv
    exact hinv
  | cons op t ih =>
    intro st f hfile hinv
    exact ih (stepOp st f op).1 (stepOp st f op).2
      (by rw [(stepOp_fields st f op).1]; exact hfile)
      (stepOp_header_inv st f op hfile hinv)

/-- Running a concatenation of operation lists. -/
theorem runOps_append : ∀ (a b : List LogOp) (st : LoggerState) (f : List FileEvent),
    runOps st f (a ++ b) = runOps (runOps st f a).1 (runOps st f a).2 b := by
  intro a
  induction a with
  | nil =>
    intro b st f
    rfl
  | cons op t ih =>
    intro b st f
    exact ih b (stepOp st f op).1 (stepOp st f op).2

/-- Below the threshold, a sequence of enqueue operations only grows the
queue: the file is untouched. -/
theorem runOps_below : ∀ (msgs : List (List Char)) (st : LoggerState) (f : List FileEvent),
    st.logFileName.length ≠ 0 →
    st.messages.length + msgs.length < st.maxQueueLength →
    runOps st f (msgs.map LogOp.log) = ({ st with messages := st.messages ++ msgs }, f) := by
  intro msgs
  induction msgs with
  | nil =>
    intro st f _ _
    show (st, f) = _
    simp
  | cons m t ih =>
    intro st f hfile h
    have heq := logRawM_below st f m (by simp at h; omega)
    have hst : stepOp st f (LogOp.log m)
        = ({ st with messages := st.messages ++ [m] }, f) := by
      show ((logRawM st f m).2.1, (logRawM st f m).2.2) = _
      rw [heq]
    show runOps (stepOp st f (LogOp.log m)).1 (stepOp st f (LogOp.log m)).2 (t.map LogOp.log)
      = _
    rw [hst]
    rw [ih { st with messages := st.messages ++ [m] } f hfile
      (by simp [List.length_append] at h ⊢; omega)]
    simp [List.append_assoc]

/-- One enqueue operation preserves the message-accounting invariant:
file lines plus queued messages equal everything logged so far. -/
theorem logStep_msgs (st : LoggerState) (f : List FileEvent) (m : List Char)
    (hfile : st.logFileName.length ≠ 0)
    (hfw : st.firstWrite = true → msgLines f = []) :
    msgLines (stepOp st f (LogOp.log m)).2 ++ (stepOp st f (LogOp.log m)).1.messages
      = msgLines f ++ st.messages ++ [m]
    ∧ ((stepOp st f (LogOp.log m)).1.firstWrite = true →
        msgLines (stepOp st f (LogOp.log m)).2 = []) := by
  by_cases ht : st.maxQueueLength ≤ st.messages.length + 1
  · have heq := logRawM_thresh st f m ht
    have hst : stepOp st f (LogOp.log m)
        = ((flushM { st with messages := st.messages ++ [m] } f).2.1,
           (flushM { st with messages := st.messages ++ [m] } f).2.2) := by
      show ((logRawM st f m).2.1, (logRawM st f m).2.2) = _
      rw [heq]
    rw [hst, flushM_spec { st with messages := st.messages ++ [m] } f hfile (by simp)]
    constructor
    · simp only [msgLines_append, msgLines_map, List.append_nil]
      by_cases hf : st.firstWrite = true
      · rw [if_pos (by simpa using hf)]
        by_cases ha : st.append = true
        · rw [if_pos (by simpa using ha)]
          simp [msgLines_append, msgLines_header, hfw hf, List.append_assoc]
        · rw [if_neg (by simpa using ha)]
          simp [msgLines_append, msgLines_header, hfw hf, List.append_assoc]
      · rw [if_neg (by simpa using hf)]
        simp [List.append_assoc]
    · intro hcontra
      simp at hcontra
  · have heq := logRawM_below st f m (by omega)
    have hst : stepOp st f (LogOp.log m)
        = ({ st with messages := st.messages ++ [m] }, f) := by
      show ((logRawM st f m).2.1, (logRawM st f m).2.2) = _
      rw [heq]
    rw [hst]
    exact ⟨by simp [List.append_assoc], hfw⟩

/-- One explicit flush empties the queue and moves it to the file in order. -/
theorem flushStep_msgs (st : LoggerState) (f : List FileEvent)
    (hfile : st.logFileName.length ≠ 0)
    (hfw : st.firstWrite = true → msgLines f = []) :
    msgLines (stepOp st f LogOp.flush).2 = msgLines f ++ st.messages
    ∧ (stepOp st f LogOp.flush).1.messages = [] := by
  by_cases hq : st.messages = []
  · have hst : stepOp st f LogOp.flush = (st, f) := by
      show ((flushM st f).2.1, (flushM st f).2.2) = (st, f)
      rw [flushM_empty st f hfile hq]
    rw [hst, hq]
    simp
  · have hst : stepOp st f LogOp.flush
        = ((flushM st f).2.1, (flushM st f).2.2) := rfl
    rw [hst, flushM_spec st f hfile hq]
    constructor
    · simp only [msgLines_append, msgLines_map]
      by_cases hf : st.firstWrite = true
      · rw [if_pos (by simpa using hf)]
        by_cases ha : st.append = true
        · rw [if_pos (by simpa using ha)]
          simp [msgLines_append, msgLines_header, hfw hf]
        · rw [if_neg (by simpa using ha)]
          simp [msgLines_append, msgLines_header, hfw hf]
      · rw [if_neg (by simpa using hf)]
    · simp

/-- The message-accounting invariant holds along any run of enqueue
operations. -/
theorem runOps_log_msgs : ∀ (msgs : List (List Char)) (st : LoggerState) (f : List FileEvent),
    st.logFileName.length ≠ 0 →
    (st.firstWrite = true → msgLines f = []) →
    msgLines (runOps st f (msgs.map LogOp.log)).2
        ++ (runOps st f (msgs.map LogOp.log)).1.messages
      = msgLines f ++ st.messages ++ msgs
    ∧ (runOps st f (msgs.map LogOp.log)).1.logFileName = st.logFileName
    ∧ ((runOps st f (msgs.map LogOp.log)).1.firstWrite = true →
        msgLines (runOps st f (msgs.map LogOp.log)).2 = []) := by
  intro msgs
  induction msgs with
  | nil =>
    intro st f _ hfw
    exact ⟨by simp [runOps], rfl, hfw⟩
  | cons m t ih =>
    intro st f hfile hfw
    have hstep := logStep_msgs st f m hfile hfw
    have hfields := stepOp_fields st f (LogOp.log m)
    have hrec := ih (stepOp st f (LogOp.log m)).1 (stepOp st f (LogOp.log m)).2
      (by rw [hfields.1]; exact hfile) hstep.2
    refine ⟨?_, ?_, ?_⟩
    · show msgLines (runOps (stepOp st f (LogOp.log m)).1 (stepOp st f (LogOp.log m)).2
          (t.map LogOp.log)).2
        ++ (runOps (stepOp st f (LogOp.log m)).1 (stepOp st f (LogOp.log m)).2
          (t.map LogOp.log)).1.messages
        = msgLines f ++ st.messages ++ (m :: t)
      rw [hrec.1, hstep.1]
      simp [List.append_assoc]
    · show (runOps (stepOp st f (LogOp.log m)).1 (stepOp st f (LogOp.log m)).2
          (t.map LogOp.log)).1.logFileName = st.logFileName
      rw [hrec.2.1, hfields.1]
    · exact hrec.2.2

/-- The line-breaking branch on a single logical line is just `wrapLine`. -/
theorem wrapLines_single (fuel mll eiw : Nat) (doExtra : Bool) (ind ei ss l : List Char) :
    wrapLines fuel mll eiw doExtra ind ei ss true [l]
      = wrapLine fuel mll eiw doExtra ind ei ss true l := by
  rw [wrapLines]
  cases h : wrapLine fuel mll eiw doExtra ind ei ss true l with
  | none => rfl
  | some ss2 => rfl

/-- A first logical line longer than the available width, with extra
indentation enabled: `wrapLine` emits the uniform-width chunks of the line. -/
theorem wrapLine_chunks (fuel mll eiw : Nat) (ind ei ss l : List Char)
    (hal : 0 < usub16 mll eiw) (hlen : usub16 mll eiw < l.length)
    (hfuel : l.length ≤ fuel) :
    wrapLine fuel mll eiw true ind ei ss true l
      = some ((ss ++ l.take (usub16 mll eiw))
          ++ ((chunksOf (usub16 mll eiw) (l.drop (usub16 mll eiw))).map
              (fun c => '\n' :: (ind ++ ei ++ c))).flatten) := by
  have h1 : ¬ l.length ≤ usub16 mll eiw := by omega
  have hstep : wrapLine fuel mll eiw true ind ei ss true l
      = splitRest fuel (usub16 mll eiw) ind ei l (usub16 mll eiw)
          (ss ++ l.take (usub16 mll eiw)) := by
    simp only [wrapLine]
    rw [if_neg h1]
    rfl
  rw [hstep]
  exact splitRest_spec (usub16 mll eiw) ind ei l hal fuel (usub16 mll eiw) _ hlen (by omega)

/-- A nonempty first logical line with both the effective width and the extra
indent width equal to `0` (and extra indentation disabled) makes `wrapLine`
diverge: the line does not fit, and the loop has zero available length. -/
theorem wrapLine_zero (fuel : Nat) (ind ei ss l : List Char) (h0 : 0 < l.length) :
    wrapLine fuel 0 0 false ind ei ss true l = none := by
  have e : usub16 0 0 = 0 := by decide
  have h1 : ¬ l.length ≤ usub16 0 0 := by rw [e]; omega
  have hstep : wrapLine fuel 0 0 false ind ei ss true l
      = splitRest fuel 0 ind ei l (usub16 0 0) (ss ++ l.take (usub16 0 0)) := by
    simp only [wrapLine]
    rw [if_neg h1]
    rfl
  rw [hstep, e]
  exact splitRest_zero fuel ind ei l 0 (ss ++ l.take 0) h0

/-- `Logger::composeMessage` with line breaking enabled for the destination
reduces to the line-breaking branch over the logical lines. -/
theorem composeMessage_wrap (fuel : Nat) (env : ComposeEnv) (props : Properties)
    (file : List Char) (line : Nat) (function : List Char) (message : List Char)
    (error toFile : Bool)
    (hwrap : ((toFile && testFlag props.flags breakLinesFile)
        || (!toFile && testFlag props.flags breakLinesTTY)) = true) :
    composeMessage fuel env props file line function message error toFile
      = wrapLines fuel (effectiveMaxLineLength toFile props env.termWidth)
          (eiwOf env props file line function error toFile)
          (testFlag props.flags doExtraIndent)
          (if props.indent ≠ 0 then List.replicate props.indent ' ' else [])
          (if testFlag props.flags doExtraIndent then
            List.replicate (eiwOf env props file line function error toFile) ' '
          else [])
          (headerOf env props file line function error toFile) true (getlines message) := by
  simp only [composeMessage]
  rw [if_pos hwrap]
  rfl

/-- `Logger::composeMessage` with line breaking disabled for the destination
reduces to the non-breaking branch over the logical lines. -/
theorem composeMessage_nowrap (fuel : Nat) (env : ComposeEnv) (props : Properties)
    (file : List Char) (line : Nat) (function : List Char) (message : List Char)
    (error toFile : Bool)
    (hwrap : ((toFile && testFlag props.flags breakLinesFile)
        || (!toFile && testFlag props.flags breakLinesTTY)) = false) :
    composeMessage fuel env props file line function message error toFile
      = some (noWrapLines
          (if props.indent ≠ 0 then List.replicate props.indent ' ' else [])
          (if testFlag props.flags doExtraIndent then
            List.replicate (eiwOf env props file line function error toFile) ' '
          else [])
          (headerOf env props file line function error toFile) true (getlines message)) := by
  simp only [composeMessage]
  rw [if_neg (show ¬ ((toFile && testFlag props.flags breakLinesFile)
      || (!toFile && testFlag props.flags breakLinesTTY)) = true by simp [hwrap])]
  rfl

/-- With no indent, no timestamp, no error and no origin info, the prefix is
empty and no SGR bytes are counted. -/
theorem composeHeader_trivial (env : ComposeEnv) (props : Properties) (line : Nat)
    (toFile : Bool) (hind : props.indent = 0)
    (hts : (toFile && (testFlag props.flags logDate || testFlag props.flags logTime))
      = false) :
    composeHeader env props [] line [] false toFile = ([], 0) := by
  simp [composeHeader, hind, hts]

/-- A zero extra indent width is left unchanged by the clamp. -/
theorem clampExtraIndent_zero (m : Nat) : clampExtraIndent m 0 = 0 := by
  unfold clampExtraIndent
  rw [if_neg (by omega)]

/-- `Logger::flush` with no log file configured fails early with
`NO_LOG_FILE` and changes nothing. -/
theorem flushM_nofile (st : LoggerState) (fileC : List FileEvent)
    (h : st.logFileName.length = 0) :
    flushM st fileC = (Status.NO_LOG_FILE, st, fileC) := by
  unfold flushM
  rw [if_pos h]

/-- The empty file has no message line. -/
theorem msgLines_nil : msgLines [] = [] := by
  rfl

/-- C1, counterexample: on a `Logger` with no log file configured, a `logRaw`
call that does not reach the queue threshold returns `OK`, not
`NO_LOG_FILE` — the claim fails for queue states below the threshold. -/
theorem logRaw_unconfigured_returns_ok :
    (logRawM (mkLoggerNoFile defaultProperties) [] ['h', 'i']).1 = Status.OK
    ∧ Status.OK ≠ Status.NO_LOG_FILE := by
  decide

/-- C1 (amended): with no log file configured, each `log*` call still
enqueues; it returns `OK` while the push stays below `maxQueueLength` and
returns `NO_LOG_FILE` exactly when the push reaches the threshold, because
only then is `flush` triggered, which reports the missing file. -/
theorem logStar_unconfigured_status (st : LoggerState) (fileC : List FileEvent)
    (h : st.logFileName.length = 0) :
    (∀ m, (logRawM st fileC m).1
      = if st.maxQueueLength ≤ st.messages.length + 1 then Status.NO_LOG_FILE
        else Status.OK)
    ∧ (∀ (fuel : Nat) (env : ComposeEnv) (file : List Char) (line : Nat)
        (function message : List Char) (props : Option Properties)
        (r : Status × LoggerState × List FileEvent),
        logMessageM fuel env st fileC file line function message props = some r →
        r.1 = if st.maxQueueLength ≤ st.messages.length + 1 then Status.NO_LOG_FILE
          else Status.OK)
    ∧ (∀ (fuel : Nat) (env : ComposeEnv) (file : List Char) (line : Nat)
        (function message : List Char) (props : Option Properties)
        (r : Status × LoggerState × List FileEvent),
        logErrorM fuel env st fileC file line function message props = some r →
        r.1 = if st.maxQueueLength ≤ st.messages.length + 1 then Status.NO_LOG_FILE
          else Status.OK) := by
  have hcore : ∀ m, (logRawM st fileC m).1
      = if st.maxQueueLength ≤ st.messages.length + 1 then Status.NO_LOG_FILE
        else Status.OK := by
    intro m
    by_cases ht : st.maxQueueLength ≤ st.messages.length + 1
    · rw [if_pos ht, logRawM_thresh st fileC m ht,
        flushM_nofile { st with messages := st.messages ++ [m] } fileC h]
    · rw [if_neg ht, logRawM_below st fileC m (by omega)]
  refine ⟨hcore, ?_, ?_⟩
  · intro fuel env file line function message props r hr
    unfold logMessageM at hr
    cases hc : composeMessage fuel env (props.getD st.outputProps) file line function
        message false true with
    | none =>
      rw [hc] at hr
      simp at hr
    | some rendered =>
      rw [hc] at hr
      simp at hr
      rw [← hr]
      exact hcore rendered
  · intro fuel env file line function message props r hr
    unfold logErrorM at hr
    cases hc : composeMessage fuel env (props.getD st.outputProps) file line function
        message true true with
    | none =>
      rw [hc] at hr
      simp at hr
    | some rendered =>
      rw [hc] at hr
      simp at hr
      rw [← hr]
      exact hcore rendered

/-- C1 amended, witness at a concrete unconfigured logger. -/
theorem logStar_unconfigured_status_witness :
    (mkLoggerNoFile defaultProperties).logFileName.length = 0
    ∧ (logRawM (mkLoggerNoFile defaultProperties) [] ['h', 'i']).1
      = if (mkLoggerNoFile defaultProperties).maxQueueLength
          ≤ (mkLoggerNoFile defaultProperties).messages.length + 1 then Status.NO_LOG_FILE
        else Status.OK :=
  ⟨by decide,
    (logStar_unconfigured_status (mkLoggerNoFile defaultProperties) [] (by decide)).1
      ['h', 'i']⟩

/-- C2, counterexample: with `breakLinesFile` set, `maxLineLengthFile = 80`
and `indent = 100`, the effective maximum line width wraps modulo `2^16` to
`65516` — it is not clamped, and it exceeds the selected width `80`. -/
theorem effectiveWidth_wraps_at_large_indent :
    effectiveMaxLineLength true
        { flags := 16, indent := 100, maxLineLengthTTY := 0, maxLineLengthFile := 80 } 80
      = 65516
    ∧ selectMaxLineLength true
        { flags := 16, indent := 100, maxLineLengthTTY := 0, maxLineLengthFile := 80 } 80
      = 80
    ∧ ¬ (65516 : Nat) ≤ 80 := by
  decide

/-- C2 (amended): `composeMessage` performs `maxLineLength -= indentWidth` in
unsigned-16-bit arithmetic with no clamp: the effective width is
`(selected + 2^16 - indent) mod 2^16`.  When the indent fits it is the plain
difference; when the indent exceeds the selected width it wraps to
`2^16 + selected - indent`, a value larger than the selected width itself. -/
theorem effectiveWidth_mod_formula (toFile : Bool) (props : Properties) (tw : Nat)
    (hind : props.indent ≠ 0) (hind16 : props.indent < 65536)
    (hsel : selectMaxLineLength toFile props tw < 65536) :
    effectiveMaxLineLength toFile props tw
      = (selectMaxLineLength toFile props tw + 65536 - props.indent) % 65536
    ∧ (props.indent ≤ selectMaxLineLength toFile props tw →
        effectiveMaxLineLength toFile props tw
          = selectMaxLineLength toFile props tw - props.indent)
    ∧ (selectMaxLineLength toFile props tw < props.indent →
        selectMaxLineLength toFile props tw < effectiveMaxLineLength toFile props tw
        ∧ effectiveMaxLineLength toFile props tw
          = 65536 + selectMaxLineLength toFile props tw - props.indent) := by
  have he : effectiveMaxLineLength toFile props tw
      = usub16 (selectMaxLineLength toFile props tw) props.indent := by
    simp only [effectiveMaxLineLength]
    rw [if_pos hind]
  refine ⟨?_, ?_, ?_⟩
  · rw [he]
    rfl
  · intro hle
    rw [he, usub16_of_le _ _ hle hsel]
  · intro hgt
    have h2 := usub16_of_gt (selectMaxLineLength toFile props tw) props.indent hgt hind16
    rw [he]
    exact ⟨h2.2, h2.1⟩

/-- C2 amended, witness at the wrapping configuration. -/
theorem effectiveWidth_mod_formula_witness :
    ({ flags := 16, indent := 100, maxLineLengthTTY := 0, maxLineLengthFile := 80 }
      : Properties).indent ≠ 0
    ∧ effectiveMaxLineLength true
        { flags := 16, indent := 100, maxLineLengthTTY := 0, maxLineLengthFile := 80 } 80
      = (selectMaxLineLength true
          { flags := 16, indent := 100, maxLineLengthTTY := 0, maxLineLengthFile := 80 } 80
          + 65536
          - ({ flags := 16, indent := 100, maxLineLengthTTY := 0, maxLineLengthFile := 80 }
              : Properties).indent) % 65536 :=
  ⟨by decide,
    (effectiveWidth_mod_formula true
      { flags := 16, indent := 100, maxLineLengthTTY := 0, maxLineLengthFile := 80 } 80
      (by decide) (by decide) (by decide)).1⟩

/-- C3 (code bug): with `breakLinesFile` set, `indent = 5` and
`maxLineLengthFile = 5`, the effective width is `0`.  On the single-line
message `hello`, `extraIndentWidth` is `0` and `doExtraIndent` is off, so the
splitting loop runs with available length `al = 0`: its step `startI += al`
consumes no characters and the loop never terminates — no amount of fuel
makes `composeMessage` finish.  The claimed progress guarantee (each split
consumes at least one character) fails. -/
theorem composeMessage_diverges_at_zero_width :
    ∀ fuel : Nat,
    composeMessage fuel ⟨[], 80, [], [], [], []⟩
        { flags := 16, indent := 5, maxLineLengthTTY := 0, maxLineLengthFile := 5 }
        [] 0 [] ("hello".toList) false true
      = none := by
  intro fuel
  rw [composeMessage_wrap fuel ⟨[], 80, [], [], [], []⟩
    { flags := 16, indent := 5, maxLineLengthTTY := 0, maxLineLengthFile := 5 }
    [] 0 [] ("hello".toList) false true (by decide)]
  rw [show effectiveMaxLineLength true
      { flags := 16, indent := 5, maxLineLengthTTY := 0, maxLineLengthFile := 5 }
      (⟨[], 80, [], [], [], []⟩ : ComposeEnv).termWidth = 0 from by decide]
  rw [show eiwOf ⟨[], 80, [], [], [], []⟩
      { flags := 16, indent := 5, maxLineLengthTTY := 0, maxLineLengthFile := 5 }
      [] 0 [] false true = 0 from by decide]
  rw [show testFlag
      ({ flags := 16, indent := 5, maxLineLengthTTY := 0, maxLineLengthFile := 5 }
        : Properties).flags doExtraIndent = false from by decide]
  rw [show getlines ("hello".toList) = [("hello".toList)] from by decide]
  rw [wrapLines_single]
  exact wrapLine_zero fuel _ _ _ ("hello".toList) (by decide)

/-- C4, counterexample: on a logger whose header has already been written
(`firstWrite = false`), calling `prepareLogFile` again is not a no-op: it
returns `OK` but writes a second header block to the file. -/
theorem prepareLogFile_rewrites_header :
    (prepareLogFileM
        { messages := [], logFileName := ['f'], outputProps := defaultProperties,
          maxQueueLength := 10, append := true, firstWrite := false } [] []).2.2
      = [FileEvent.headerBlock []]
    ∧ ([FileEvent.headerBlock []] : List FileEvent) ≠ []
    ∧ (prepareLogFileM
        { messages := [], logFileName := ['f'], outputProps := defaultProperties,
          maxQueueLength := 10, append := true, firstWrite := false } [] []).1
      = Status.OK := by
  decide

/-- C4 (amended): `prepareLogFile` has no `firstWrite` guard.  Whenever a
file is configured it writes a header block and returns `OK` (no-failure
model), regardless of `firstWrite`.  The header-once behaviour lives in
`flush`, which calls `prepareLogFile` only while `firstWrite` is set: with
`firstWrite` already cleared, `flush` writes no further header. -/
theorem prepareLogFile_always_writes_header (st : LoggerState) (fileC : List FileEvent)
    (name : List Char) (h : st.logFileName.length ≠ 0) :
    prepareLogFileM st fileC name
      = (Status.OK, { st with firstWrite := false },
         (if st.append then fileC else []) ++ [FileEvent.headerBlock name])
    ∧ (st.firstWrite = false →
        headerCount (flushM st fileC).2.2 = headerCount fileC) := by
  refine ⟨prepareLogFileM_spec st fileC name h, ?_⟩
  intro hf
  by_cases hq : st.messages = []
  · rw [flushM_empty st fileC h hq]
  · rw [flushM_spec st fileC h hq]
    rw [if_neg (show ¬ st.firstWrite = true by simp [hf])]
    simp [headerCount_append, headerCount_msgLines]

/-- C4 amended, witness on a concrete already-written logger. -/
theorem prepareLogFile_always_writes_header_witness :
    (['f'] : List Char).length ≠ 0
    ∧ prepareLogFileM
        { messages := [], logFileName := ['f'], outputProps := defaultProperties,
          maxQueueLength := 10, append := true, firstWrite := false } [] []
      = (Status.OK,
         { messages := [], logFileName := ['f'], outputProps := defaultProperties,
           maxQueueLength := 10, append := true, firstWrite := false },
         (if true then ([] : List FileEvent) else []) ++ [FileEvent.headerBlock []]) :=
  ⟨by decide,
    (prepareLogFile_always_writes_header
      { messages := [], logFileName := ['f'], outputProps := defaultProperties,
        maxQueueLength := 10, append := true, firstWrite := false } [] []
      (by decide)).1⟩

/-- C5: between one file assignment and the next, at most one header block is
ever written by `report*`/`log*`/`flush` activity, and as soon as any flush
has produced file content, exactly one header block is in the file (the
first effective flush writes it; later flushes never write another).  Both
the file constructor and `setLogFile` start such a session by setting
`firstWrite`. -/
theorem header_written_at_most_once (st : LoggerState) (ops : List LogOp)
    (hfile : st.logFileName.length ≠ 0) (hfw : st.firstWrite = true) :
    headerCount (runOps st [] ops).2 ≤ 1
    ∧ ((runOps st [] ops).2 ≠ [] → headerCount (runOps st [] ops).2 = 1)
    ∧ (∀ (st2 : LoggerState) (f2 : List FileEvent) (n : List Char) (a : Bool),
        (setLogFileM st2 f2 n a).2.1.firstWrite = true)
    ∧ (mkLogger st.logFileName st.append st.outputProps).firstWrite = true := by
  have hinv := runOps_header_inv ops st [] hfile (Or.inl ⟨hfw, rfl⟩)
  refine ⟨?_, ?_, ?_, rfl⟩
  · rcases hinv with ⟨_, hfe⟩ | ⟨_, hc⟩
    · rw [hfe]
      simp [headerCount_nil]
    · omega
  · intro hne
    rcases hinv with ⟨_, hfe⟩ | ⟨_, hc⟩
    · exact absurd hfe hne
    · exact hc
  · intro st2 f2 n a
    rfl

/-- C5, witness on a concrete session with two flushes. -/
theorem header_written_at_most_once_witness :
    (mkLogger ['r'] true defaultProperties).logFileName.length ≠ 0
    ∧ headerCount (runOps (mkLogger ['r'] true defaultProperties) []
        [LogOp.log ['a'], LogOp.flush, LogOp.flush, LogOp.log ['b'], LogOp.flush]).2 ≤ 1 :=
  ⟨by decide,
    (header_written_at_most_once (mkLogger ['r'] true defaultProperties)
      [LogOp.log ['a'], LogOp.flush, LogOp.flush, LogOp.log ['b'], LogOp.flush]
      (by decide) (by decide)).1⟩

/-- C6: write-deferral.  First part: while the queue stays strictly below
`maxQueueLength`, a sequence of `log*` enqueue steps writes nothing to the
file — it only appends to the queue.  Second part: the push that reaches
`maxQueueLength` triggers an immediate flush, draining the whole queue into
the file at once (writing the session header first when still pending). -/
theorem write_deferral :
    (∀ (st : LoggerState) (fileC : List FileEvent) (msgs : List (List Char)),
      st.logFileName.length ≠ 0 →
      st.messages.length + msgs.length < st.maxQueueLength →
      runOps st fileC (msgs.map LogOp.log)
        = ({ st with messages := st.messages ++ msgs }, fileC))
    ∧ (∀ (st : LoggerState) (fileC : List FileEvent) (m : List Char),
      st.logFileName.length ≠ 0 →
      st.maxQueueLength ≤ st.messages.length + 1 →
      logRawM st fileC m
        = (Status.OK, { st with messages := [], firstWrite := false },
           (if st.firstWrite then
              (if st.append then fileC else []) ++ [FileEvent.headerBlock []]
            else fileC) ++ (st.messages ++ [m]).map FileEvent.msgLine)) := by
  constructor
  · exact fun st fileC msgs h1 h2 => runOps_below msgs st fileC h1 h2
  · intro st fileC m h1 h2
    rw [logRawM_thresh st fileC m h2]
    rw [flushM_spec { st with messages := st.messages ++ [m] } fileC h1 (by simp)]

/-- C6, witness: two below-threshold pushes leave the file empty. -/
theorem write_deferral_witness :
    (mkLogger ['r'] true defaultProperties).logFileName.length ≠ 0
    ∧ runOps (mkLogger ['r'] true defaultProperties) [] ([['a'], ['b']].map LogOp.log)
      = ({ mkLogger ['r'] true defaultProperties with
            messages := (mkLogger ['r'] true defaultProperties).messages ++ [['a'], ['b']] },
         []) :=
  ⟨by decide,
    write_deferral.1 (mkLogger ['r'] true defaultProperties) [] [['a'], ['b']]
      (by decide) (by decide)⟩

/-- C7: wrapping correctness.  For a single-line message longer than the
effective width `al = availOf … = maxLineWidth - extraIndentWidth` (the
uniform per-line width when `doExtraIndent` is enabled), `composeMessage`
renders the header followed by the `al`-character chunks of the message:
the output splits at newlines into `⌈L / al⌉` physical lines, the first
being the header plus the first chunk and every later one the
`indent ++ extraIndent` prefix plus a chunk; every chunk is at most `al`
characters long, and stripping the prefixes and concatenating the chunks
reproduces the message exactly. -/
theorem wrap_correctness (fuel : Nat) (env : ComposeEnv) (props : Properties)
    (file : List Char) (line : Nat) (function : List Char) (message : List Char)
    (error toFile : Bool) (al : Nat) (hdr ind ei : List Char)
    (hal_def : al = availOf env props file line function error toFile)
    (hhdr_def : hdr = headerOf env props file line function error toFile)
    (hind_def : ind = (if props.indent ≠ 0 then List.replicate props.indent ' ' else []))
    (hei_def : ei = List.replicate (eiwOf env props file line function error toFile) ' ')
    (hwrap : ((toFile && testFlag props.flags breakLinesFile)
        || (!toFile && testFlag props.flags breakLinesTTY)) = true)
    (hextra : testFlag props.flags doExtraIndent = true)
    (hal : 0 < al) (hlen : al < message.length) (hfuel : message.length ≤ fuel)
    (hnlm : '\n' ∉ message) (hnlh : '\n' ∉ hdr) :
    ∃ rest : List (List Char),
      chunksOf al message = message.take al :: rest
      ∧ composeMessage fuel env props file line function message error toFile
        = some ((hdr ++ message.take al)
            ++ (rest.map (fun c => '\n' :: (ind ++ ei ++ c))).flatten)
      ∧ splitOnNl ((hdr ++ message.take al)
            ++ (rest.map (fun c => '\n' :: (ind ++ ei ++ c))).flatten)
        = (hdr ++ message.take al) :: rest.map (fun c => ind ++ ei ++ c)
      ∧ (splitOnNl ((hdr ++ message.take al)
            ++ (rest.map (fun c => '\n' :: (ind ++ ei ++ c))).flatten)).length
        = (message.length + al - 1) / al
      ∧ (∀ c ∈ chunksOf al message, c.length ≤ al)
      ∧ (chunksOf al message).flatten = message := by
  have hne : message ≠ [] := by
    intro hm
    rw [hm] at hlen
    exact absurd hlen (by simp)
  have hav : al = usub16 (effectiveMaxLineLength toFile props env.termWidth)
      (eiwOf env props file line function error toFile) := hal_def
  have h2 : composeMessage fuel env props file line function message error toFile
      = some ((hdr ++ message.take al)
          ++ ((chunksOf al (message.drop al)).map
              (fun c => '\n' :: (ind ++ ei ++ c))).flatten) := by
    rw [composeMessage_wrap fuel env props file line function message error toFile hwrap]
    rw [show (if testFlag props.flags doExtraIndent = true then
        List.replicate (eiwOf env props file line function error toFile) ' '
      else ([] : List Char))
        = List.replicate (eiwOf env props file line function error toFile) ' ' from by
      rw [hextra]
      rfl]
    rw [hextra, getlines_no_nl message hnlm hne, wrapLines_single]
    rw [wrapLine_chunks fuel (effectiveMaxLineLength toFile props env.termWidth)
      (eiwOf env props file line function error toFile) _ _ _ message
      (hav ▸ hal) (hav ▸ hlen) hfuel]
    rw [← hhdr_def, ← hind_def, ← hei_def, ← hav]
  have hsp : ∀ x ∈ ind ++ ei, x ≠ '\n' := by
    intro x hx
    rw [hind_def, hei_def] at hx
    rcases List.mem_append.mp hx with hx | hx
    · by_cases hi : props.indent ≠ 0
      · rw [if_pos hi] at hx
        rw [(List.mem_replicate.mp hx).2]
        decide
      · rw [if_neg hi] at hx
        exact absurd hx (List.not_mem_nil x)
    · rw [(List.mem_replicate.mp hx).2]
      decide
  have hfirst : '\n' ∉ hdr ++ message.take al := by
    intro hx
    rcases List.mem_append.mp hx with hx | hx
    · exact hnlh hx
    · exact hnlm (List.take_subset al message hx)
  have hchunks : ∀ c ∈ chunksOf al (message.drop al), '\n' ∉ c := by
    intro c hc hx
    exact hnlm (List.drop_subset al message
      (chunksOf_chunk_subset al (message.drop al) c hc '\n' hx))
  have h3 : splitOnNl ((hdr ++ message.take al)
        ++ ((chunksOf al (message.drop al)).map
            (fun c => '\n' :: (ind ++ ei ++ c))).flatten)
      = (hdr ++ message.take al)
        :: (chunksOf al (message.drop al)).map (fun c => ind ++ ei ++ c) := by
    have hr := splitOnNl_rendered (ind ++ ei) (fun hx => hsp '\n' hx rfl)
      (chunksOf al (message.drop al)) (hdr ++ message.take al) hfirst hchunks
    simpa [List.append_assoc] using hr
  have h1 : chunksOf al message = message.take al :: chunksOf al (message.drop al) :=
    chunksOf_step al message hal hlen
  have h4 : (splitOnNl ((hdr ++ message.take al)
        ++ ((chunksOf al (message.drop al)).map
            (fun c => '\n' :: (ind ++ ei ++ c))).flatten)).length
      = (message.length + al - 1) / al := by
    rw [h3]
    have hcnt := chunksOf_length al hal message.length message (by omega) le_rfl
    rw [h1] at hcnt
    simp only [List.length_cons, List.length_map] at hcnt ⊢
    omega
  exact ⟨chunksOf al (message.drop al), h1, h2, h3, h4,
    chunksOf_chunk_le al hal message.length message le_rfl,
    chunksOf_join al message.length message le_rfl⟩

/-- C7, witness: a 15-character single-line message at file width 10 with
extra indentation enabled. -/
theorem wrap_correctness_witness :
    (0 : Nat) < 10
    ∧ ∃ rest : List (List Char),
      chunksOf 10 ("abcdefghijklmno".toList)
        = ("abcdefghijklmno".toList).take 10 :: rest
      ∧ composeMessage 15 ⟨[], 80, [], [], [], []⟩
          { flags := 48, indent := 0, maxLineLengthTTY := 0, maxLineLengthFile := 10 }
          [] 0 [] ("abcdefghijklmno".toList) false true
        = some ((([] : List Char) ++ ("abcdefghijklmno".toList).take 10)
            ++ (rest.map (fun c => '\n' :: (([] : List Char) ++ ([] : List Char) ++ c))).flatten)
      ∧ splitOnNl ((([] : List Char) ++ ("abcdefghijklmno".toList).take 10)
            ++ (rest.map (fun c => '\n' :: (([] : List Char) ++ ([] : List Char) ++ c))).flatten)
        = (([] : List Char) ++ ("abcdefghijklmno".toList).take 10)
            :: rest.map (fun c => ([] : List Char) ++ ([] : List Char) ++ c)
      ∧ (splitOnNl ((([] : List Char) ++ ("abcdefghijklmno".toList).take 10)
            ++ (rest.map (fun c => '\n' :: (([] : List Char) ++ ([] : List Char) ++ c))).flatten)).length
        = (("abcdefghijklmno".toList).length + 10 - 1) / 10
      ∧ (∀ c ∈ chunksOf 10 ("abcdefghijklmno".toList), c.length ≤ 10)
      ∧ (chunksOf 10 ("abcdefghijklmno".toList)).flatten = "abcdefghijklmno".toList :=
  ⟨by decide,
    wrap_correctness 15 ⟨[], 80, [], [], [], []⟩
      { flags := 48, indent := 0, maxLineLengthTTY := 0, maxLineLengthFile := 10 }
      [] 0 [] ("abcdefghijklmno".toList) false true 10 [] [] []
      (by decide) (by decide) (by decide) (by decide) (by decide) (by decide)
      (by decide) (by decide) (by decide) (by decide) (by decide)⟩

/-- C8, counterexample: with wrapping disabled, no origin info, no error, no
timestamp and zero indent, a message that ends in a newline is not returned
identically: the `std::getline` loop yields no final empty segment, so the
trailing newline is dropped. -/
theorem noWrap_trailing_newline_dropped :
    composeMessage 0 ⟨[], 80, [], [], [], []⟩
        { flags := 0, indent := 0, maxLineLengthTTY := 0, maxLineLengthFile := 0 }
        [] 0 [] ['a', '\n'] false false
      = some ['a']
    ∧ (['a'] : List Char) ≠ ['a', '\n'] := by
  decide

/-- C8 (amended): with wrapping disabled for the destination, no origin info
(empty file and function), no error flag, no timestamp and zero indent,
`composeMessage` returns the raw message exactly — including messages with
embedded newline characters — provided the message does not end in a
newline; a trailing newline is dropped (see the counterexample). -/
theorem noWrap_identity (fuel : Nat) (env : ComposeEnv) (props : Properties)
    (line : Nat) (message : List Char) (toFile : Bool)
    (hwrap : ((toFile && testFlag props.flags breakLinesFile)
        || (!toFile && testFlag props.flags breakLinesTTY)) = false)
    (hind : props.indent = 0)
    (hts : (toFile && (testFlag props.flags logDate || testFlag props.flags logTime))
      = false)
    (hlast : message.getLast? ≠ some '\n') :
    composeMessage fuel env props [] line [] message false toFile = some message := by
  rw [composeMessage_nowrap fuel env props [] line [] message false toFile hwrap]
  have hh : headerOf env props [] line [] false toFile = [] := by
    unfold headerOf
    rw [composeHeader_trivial env props line toFile hind hts]
  have hsg : sgrLenOf env props [] line [] false toFile = 0 := by
    unfold sgrLenOf
    rw [composeHeader_trivial env props line toFile hind hts]
  have hei : eiwOf env props [] line [] false toFile = 0 := by
    unfold eiwOf
    rw [hh, hsg, hind]
    simp [clampExtraIndent_zero]
  rw [hh, hei, hind]
  simp only [List.replicate_zero, ite_self]
  rw [noWrapLines_nil_ind, joinNl_getlines message hlast]
  simp

/-- C8 amended, witness: an embedded newline round-trips unchanged. -/
theorem noWrap_identity_witness :
    (['a', 'b', '\n', 'c'] : List Char).getLast? ≠ some '\n'
    ∧ composeMessage 0 ⟨[], 80, [], [], [], []⟩
        { flags := 0, indent := 0, maxLineLengthTTY := 0, maxLineLengthFile := 0 }
        [] 0 [] ['a', 'b', '\n', 'c'] false false
      = some ['a', 'b', '\n', 'c'] :=
  ⟨by decide,
    noWrap_identity 0 ⟨[], 80, [], [], [], []⟩
      { flags := 0, indent := 0, maxLineLengthTTY := 0, maxLineLengthFile := 0 }
      0 ['a', 'b', '\n', 'c'] false (by decide) (by decide) (by decide) (by decide)⟩

/-- C9: with the per-instance mutex modelled by taking each locked section as
one atomic step, any serialized interleaving `msgs` of the `reportMessage`
calls of `N` threads (each call enqueues its rendered line under the lock;
the print half never touches the file) followed by the final flush leaves
exactly the lines of `msgs` in the file, in interleaving order: none
dropped, none duplicated — for `N` threads with `M` unique payloads each,
exactly `N × M` lines. -/
theorem serialized_log_count (msgs : List (List Char)) (st : LoggerState)
    (hfile : st.logFileName.length ≠ 0) (hq : st.messages = []) :
    msgLines (runOps st [] (msgs.map LogOp.log ++ [LogOp.flush])).2 = msgs
    ∧ (msgLines (runOps st [] (msgs.map LogOp.log ++ [LogOp.flush])).2).length
      = msgs.length
    ∧ ∀ p : List Char,
        (msgLines (runOps st [] (msgs.map LogOp.log ++ [LogOp.flush])).2).count p
          = msgs.count p := by
  have hmain := runOps_log_msgs msgs st [] hfile (fun _ => rfl)
  have hflush := flushStep_msgs (runOps st [] (msgs.map LogOp.log)).1
    (runOps st [] (msgs.map LogOp.log)).2 (by rw [hmain.2.1]; exact hfile) hmain.2.2
  have hsplit : runOps st [] (msgs.map LogOp.log ++ [LogOp.flush])
      = runOps (runOps st [] (msgs.map LogOp.log)).1
          (runOps st [] (msgs.map LogOp.log)).2 [LogOp.flush] :=
    runOps_append (msgs.map LogOp.log) [LogOp.flush] st []
  have hfin : msgLines (runOps st [] (msgs.map LogOp.log ++ [LogOp.flush])).2 = msgs := by
    rw [hsplit]
    show msgLines (stepOp (runOps st [] (msgs.map LogOp.log)).1
        (runOps st [] (msgs.map LogOp.log)).2 LogOp.flush).2 = msgs
    rw [hflush.1]
    have hacc := hmain.1
    rw [hq] at hacc
    simpa [msgLines_nil] using hacc
  exact ⟨hfin, by rw [hfin], fun p => by rw [hfin]⟩

/-- C9, witness: three interleaved unique payloads end up as exactly those
three lines. -/
theorem serialized_log_count_witness :
    (mkLogger ['r'] true defaultProperties).messages = []
    ∧ msgLines (runOps (mkLogger ['r'] true defaultProperties) []
        ([['a'], ['b'], ['c']].map LogOp.log ++ [LogOp.flush])).2 = [['a'], ['b'], ['c']] :=
  ⟨rfl,
    (serialized_log_count [['a'], ['b'], ['c']] (mkLogger ['r'] true defaultProperties)
      (by decide) rfl).1⟩

/-- C10 (code bug): `prepareLogFile` called with `skipLock = false` on a
logger with no log file configured takes the mutex (logger.cpp:89-90) and
then returns `NO_LOG_FILE` at logger.cpp:92-93 without releasing it: the
lock is leaked, and the next locking operation self-deadlocks.  By contrast
`flush` releases (or never takes) the lock on every return path, and the
successful `prepareLogFile` path unlocks before returning. -/
theorem prepareLogFile_lock_leak (st : LoggerState) (h : st.logFileName.length = 0) :
    (prepareLogFileLock st false).1 = Status.NO_LOG_FILE
    ∧ (prepareLogFileLock st false).2 = true
    ∧ (∀ st2 : LoggerState, (flushLock st2 false).2 = false)
    ∧ (∀ st2 : LoggerState, st2.logFileName.length ≠ 0 →
        (prepareLogFileLock st2 false).2 = false) := by
  refine ⟨?_, ?_, ?_, ?_⟩
  · unfold prepareLogFileLock
    rw [if_pos h]
  · unfold prepareLogFileLock
    rw [if_pos h]
    rfl
  · intro st2
    unfold flushLock
    repeat' split
    all_goals simp_all
  · intro st2 h2
    unfold prepareLogFileLock
    rw [if_neg h2]
    rfl

/-- C10, witness: the leak at a concrete unconfigured logger. -/
theorem prepareLogFile_lock_leak_witness :
    (mkLoggerNoFile defaultProperties).logFileName.length = 0
    ∧ (prepareLogFileLock (mkLoggerNoFile defaultProperties) false).2 = true :=
  ⟨rfl,
    (prepareLogFile_lock_leak (mkLoggerNoFile defaultProperties) rfl).2.1⟩
